import Mathlib

/-!
Shallow embedding of the OCR candidate-selection and page-assembly pipeline
of the repository `read-text-img` (two scripts:
`read_book_to_text.py`, the "Book" variant, and
`extract_text_from_images.py`, the "images" variant).

Strings are modelled as `List Char`; the external OCR engine is a parameter
(`Engine`), with a raised exception modelled as `Except.error`.
-/

namespace ReadTextImg

set_option maxRecDepth 200000

/-- Python strings are modelled as lists of characters. -/
abbrev Text := List Char

/-- The ASCII whitespace characters stripped by Python `str.strip()`
(the inputs in this development are ASCII/Thai text, where these are the
only whitespace characters that occur). -/
def isPySpace (c : Char) : Bool :=
  c = ' ' || c = '\t' || c = '\n' || c = '\r' || c = '\x0b' || c = '\x0c'

/-- Python `str.strip()`: remove leading and trailing whitespace. -/
def pyStrip (s : Text) : Text :=
  ((s.dropWhile isPySpace).reverse.dropWhile isPySpace).reverse

/-- Index of the last `'.'` in a name, if any (Python `str.rfind('.')`). -/
def rfindDot : Text → Option Nat
  | [] => none
  | c :: rest =>
    match rfindDot rest with
    | some i => some (i + 1)
    | none => if c = '.' then some 0 else none

/-- Python `pathlib.PurePath.suffix` on a bare filename: the part from the
last dot, unless the dot is the first or the last character. -/
def pySuffix (s : Text) : Text :=
  match rfindDot s with
  | some i => if 0 < i ∧ i < s.length - 1 then s.drop i else []
  | none => []

/-- Python string `<=`: lexicographic comparison by code point. -/
def strLe : Text → Text → Bool
  | [], _ => true
  | _ :: _, [] => false
  | a :: as, b :: bs => if a = b then strLe as bs else decide (a < b)

/-! ### The recognition-engine call model -/

/-- Which raster is handed to the engine. -/
inductive ImgSrc
  | original
  | preprocessed
deriving DecidableEq, Repr

/-- The `lang=` argument of a recognition call. -/
inductive LangSet
  | thaEng
  | engOnly
deriving DecidableEq, Repr

/-- The page-segmentation mode (`--psm 6` is a uniform block,
`--psm 3` is fully automatic page segmentation). -/
inductive SegMode
  | uniformBlock
  | fullPageAuto
deriving DecidableEq, Repr

/-- One invocation of the recognition engine: which image, which language
set, which segmentation mode. -/
structure OcrCall where
  src : ImgSrc
  lang : LangSet
  mode : SegMode
deriving DecidableEq, Repr

/-- The four recognition calls of `extract_text_with_layout`
(`read_book_to_text.py`), in source order: `text1` original tha+eng psm 6,
`text2` preprocessed tha+eng psm 6, `text3` original tha+eng psm 3,
`text4` original eng psm 6. -/
def bookCalls : List OcrCall :=
  [⟨.original, .thaEng, .uniformBlock⟩,
   ⟨.preprocessed, .thaEng, .uniformBlock⟩,
   ⟨.original, .thaEng, .fullPageAuto⟩,
   ⟨.original, .engOnly, .uniformBlock⟩]

/-- The three recognition calls of `extract_text_from_image`
(`extract_text_from_images.py`), in source order: `text1` preprocessed
tha+eng psm 6, `text2` original tha+eng psm 6, `text3` original eng psm 6. -/
def imagesCalls : List OcrCall :=
  [⟨.preprocessed, .thaEng, .uniformBlock⟩,
   ⟨.original, .thaEng, .uniformBlock⟩,
   ⟨.original, .engOnly, .uniformBlock⟩]

/-- The four enumerated (image, language-set, mode) triples in the order the
specification lists them, written from the spec's words for comparison with
the per-script call lists. -/
def specEnumeratedCalls : List OcrCall :=
  [⟨.original, .thaEng, .uniformBlock⟩,
   ⟨.preprocessed, .thaEng, .uniformBlock⟩,
   ⟨.original, .thaEng, .fullPageAuto⟩,
   ⟨.original, .engOnly, .uniformBlock⟩]

/-- The recognition engine for one input image: a call either returns text
or raises (modelled as `Except.error` carrying the message). A failure to
decode the image surfaces as the first call raising. -/
abbrev Engine := OcrCall → Except Text Text

/-- Run the listed calls in order, left to right; the first raised
exception aborts the remainder (Python exception propagation out of the
`try` block). -/
def traverseCalls (engine : Engine) : List OcrCall → Except Text (List Text)
  | [] => .ok []
  | c :: cs =>
    match engine c with
    | .ok t =>
      match traverseCalls engine cs with
      | .ok ts => .ok (t :: ts)
      | .error e => .error e
    | .error e => .error e

/-- The sequence of engine invocations actually performed when running the
listed calls in order (an exception stops further calls). -/
def callTrace (engine : Engine) : List OcrCall → List OcrCall
  | [] => []
  | c :: cs =>
    c :: (match engine c with
          | .ok _ => callTrace engine cs
          | .error _ => [])

/-! ### Candidate selection -/

/-- Python `max(xs, key=key)` on the nonempty list `x :: xs`: left fold that
replaces the current best only on a strictly greater key, hence returns the
first element attaining the maximal key. -/
def pyMax (key : Text → Nat) (x : Text) (xs : List Text) : Text :=
  xs.foldl (fun b a => if key b < key a then a else b) x

/-- `pyMax` on a plain list (the empty case never occurs in the pipeline:
both scripts build a fixed nonempty candidate list). -/
def pyMaxL (key : Text → Nat) : List Text → Text
  | [] => []
  | x :: xs => pyMax key x xs

/-- The selection key of the Book variant: `len(x.strip())`. -/
def stripLen (t : Text) : Nat := (pyStrip t).length

/-- The selection key of the images variant: `len(x)` (raw length). -/
def rawLen (t : Text) : Nat := t.length

/-! ### Newline collapsing -/

/-- Worker for `collapseNewlines`: `k` is the length of the pending run of
consecutive newlines read but not yet emitted. A run of `j` newlines is
emitted as `min j 2` newlines once the run ends (at a non-newline character
or at the end of the text). -/
def collapseAux : Nat → Text → Text
  | k, [] => List.replicate (min k 2) '\n'
  | k, c :: rest =>
    if c = '\n' then collapseAux (k + 1) rest
    else List.replicate (min k 2) '\n' ++ c :: collapseAux 0 rest

/-- Python `re.sub(r'\n{3,}', '\n\n', text)`: every maximal run of three or
more consecutive newlines is replaced by exactly two (the regex is greedy,
so each match is a maximal run); shorter runs and all other characters are
unchanged. -/
def collapseNewlines (s : Text) : Text := collapseAux 0 s

/-- Worker for `noTriple`: `k` is the length of the current run of
consecutive newlines. -/
def noTripleAux : Nat → Text → Bool
  | _, [] => true
  | k, c :: rest =>
    if c = '\n' then
      if 3 ≤ k + 1 then false else noTripleAux (k + 1) rest
    else noTripleAux 0 rest

/-- `noTriple s` holds when `s` has no three consecutive newlines. -/
def noTriple (s : Text) : Bool := noTripleAux 0 s

/-! ### The per-file image pipelines -/

/-- `extract_text_with_layout` of `read_book_to_text.py`: run the four
configured recognition calls in order, take the candidate of maximal
stripped length (stable `max`), strip it, collapse newline runs of three or
more to two. On any raised exception the file yields empty text and a
console log entry `(filename, message)`. -/
def extract_text_with_layout (name : Text) (engine : Engine) :
    Text × Option (Text × Text) :=
  match traverseCalls engine bookCalls with
  | .ok results => (collapseNewlines (pyStrip (pyMaxL stripLen results)), none)
  | .error e => ([], some (name, e))

/-- `extract_text_from_image` of `extract_text_from_images.py`: run the
three configured recognition calls in order, take the candidate of maximal
raw length (stable `max`), strip it. On any raised exception the file
yields empty text and a console log entry `(filename, message)`. -/
def extract_text_from_image (name : Text) (engine : Engine) :
    Text × Option (Text × Text) :=
  match traverseCalls engine imagesCalls with
  | .ok results => (pyStrip (pyMaxL rawLen results), none)
  | .error e => ([], some (name, e))

/-! ### Classification and discovery -/

/-- The kind a path is dispatched to. -/
inductive FileKind
  | image
  | text
  | unsupported
deriving DecidableEq, Repr

/-- The image extensions of the Book variant's dispatch
(`['.png', '.jpg', '.jpeg', '.bmp', '.tiff']`). -/
def bookImageExts : List Text :=
  [".png".data, ".jpg".data, ".jpeg".data, ".bmp".data, ".tiff".data]

/-- The per-file dispatch of `read_book_to_text.py`'s main loop:
`file_path.suffix.lower()` matched against the image list, then `['.txt']`;
anything else falls through with empty content. -/
def classifyBook (name : Text) : FileKind :=
  let ext := (pySuffix name).map Char.toLower
  if ext ∈ bookImageExts then .image
  else if ext = ".txt".data then .text
  else .unsupported

/-- Written from the specification's words: classification is by
case-insensitive extension matching against the fixed allow-lists
image = {png, jpg, jpeg, bmp, tiff} and text = {txt}; anything else is
unsupported. For comparison with `classifyBook`. -/
def classifySpec (name : Text) : FileKind :=
  let ext := pySuffix name
  if bookImageExts.any (fun e => ext.map Char.toLower = e.map Char.toLower) then .image
  else if ext.map Char.toLower = ".txt".data.map Char.toLower then .text
  else .unsupported

/-- The glob patterns of the Book variant, in source order: the image
patterns (upper case enumerated only for png/jpg/jpeg) then the text
patterns. -/
def bookPatterns : List Text :=
  ["*.png".data, "*.jpg".data, "*.jpeg".data, "*.PNG".data, "*.JPG".data,
   "*.JPEG".data, "*.bmp".data, "*.tiff".data, "*.txt".data, "*.TXT".data]

/-- The glob patterns of the images variant, in source order
(no bmp, tiff or txt at all). -/
def imagesPatterns : List Text :=
  ["*.png".data, "*.jpg".data, "*.jpeg".data, "*.PNG".data, "*.JPG".data,
   "*.JPEG".data]

/-- Matching of the scripts' glob patterns, all of the form `*.<ext>`:
`*` matches any prefix, so the pattern matches exactly the names ending in
its literal suffix (case-sensitively). This is `pathlib.Path.glob`
semantics (used by the Book variant), which does not treat leading dots
specially. -/
def globMatch (pat : Text) (name : Text) : Bool :=
  match pat with
  | '*' :: suffix => suffix.isSuffixOf name
  | p => p == name

/-- `glob.glob` semantics (used by the images variant): as `globMatch`,
except that a leading `*` never matches a name starting with a dot
(hidden files are excluded). -/
def globMatchG (pat : Text) (name : Text) : Bool :=
  !(name.head? == some '.') && globMatch pat name

/-- Directory discovery: glob each pattern in order over the listing and
concatenate the per-pattern results (the scripts then sort the result). -/
def discover (matcher : Text → Text → Bool) (patterns : List Text)
    (listing : List Text) : List Text :=
  patterns.flatMap (fun pat => listing.filter (matcher pat))

/-- Insert into a `strLe`-sorted list, keeping it sorted. -/
def insertFile (a : Text) : List Text → List Text
  | [] => [a]
  | b :: bs => if strLe a b then a :: b :: bs else b :: insertFile a bs

/-- Python `list.sort` with a string key: the `strLe`-sorted permutation of
the list (unique, since `strLe` is an antisymmetric total order on
filenames), computed here by insertion sort. -/
def sortFiles : List Text → List Text
  | [] => []
  | a :: as => insertFile a (sortFiles as)

/-! ### The run pipelines -/

/-- One page of the assembled output: the 1-based ordinal used in its
separator, the filename, and the selected content. -/
structure Page where
  idx : Nat
  name : Text
  content : Text
deriving DecidableEq, Repr

/-- The observable outcome of one run: the written document (if any), the
pages appended to the corpus, the per-file error log entries, the total
file count of the run, and the operator failure message (if any). -/
structure RunResult where
  output : Option Text
  pages : List Page
  logs : List (Text × Text)
  totalFiles : Nat
  failMsg : Option Text
deriving DecidableEq, Repr

/-- The per-file content loop (`for idx, file in enumerate(files, n)`):
files are processed in order, and a file contributes a page exactly when
its content is nonempty (Python `if content:`), tagged with its enumeration
ordinal. -/
def processFrom (co : Text → Text) (n : Nat) : List Text → List Page
  | [] => []
  | x :: files =>
    if co x = [] then processFrom co (n + 1) files
    else ⟨n, x, co x⟩ :: processFrom co (n + 1) files

/-- The per-file loop as both scripts run it, enumerating from 1. -/
def processAll (co : Text → Text) (files : List Text) : List Page :=
  processFrom co 1 files

/-- Content of one Book-variant file: dispatch on the classified kind;
unsupported files fall through with empty content and no log. -/
def bookContent (ocr : Text → Engine) (readTxt : Text → Text) (name : Text) :
    Text × Option (Text × Text) :=
  match classifyBook name with
  | .image => extract_text_with_layout name (ocr name)
  | .text => (readTxt name, none)
  | .unsupported => ([], none)

/-- `'=' * 100`. -/
def eq100 : Text := List.replicate 100 '='

/-- `'=' * 80`. -/
def eq80 : Text := List.replicate 80 '='

/-- Decimal rendering of a count, as Python string interpolation does. -/
def natText (n : Nat) : Text := (toString n).data

/-- `format_page_separator` of `read_book_to_text.py`. -/
def format_page_separator (idx : Nat) (name : Text) : Text :=
  "\n\n".data ++ eq100 ++ "\n".data ++ "หน้าที่ ".data ++ natText idx
    ++ ": ".data ++ name ++ "\n".data ++ eq100 ++ "\n\n".data

/-- The Book variant's document header: file count and the processing-date
field `ts` (in the source, the modification time of a pre-existing output
file, or the string `N/A`). -/
def bookHeader (n : Nat) (ts : Text) : Text :=
  eq100 ++ "\n📚 สรุปเนื้อหาจากโฟลเดอร์ Book\n".data ++ eq100
    ++ "\nจำนวนไฟล์ทั้งหมด: ".data ++ natText n
    ++ " ไฟล์\nวันที่ประมวลผล: ".data ++ ts ++ "\n".data ++ eq100 ++ "\n".data

/-- The document the Book variant writes: header, then for each page its
separator block followed by its content (`''.join(all_content)`). -/
def renderBook (n : Nat) (ts : Text) (pages : List Page) : Text :=
  bookHeader n ts
    ++ pages.flatMap (fun p => format_page_separator p.idx p.name ++ p.content)

/-- The document the images variant writes:
`'\n'.join` of, per page, the rule, the filename label, the rule again, the
text, and one empty entry — with no header. -/
def renderImages (pages : List Page) : Text :=
  List.intercalate "\n".data
    (pages.flatMap fun p => [eq80, "ไฟล์: ".data ++ p.name, eq80, p.content, []])

/-- The Book variant's discovered, sorted file list. -/
def bookFiles (listing : List Text) : List Text :=
  sortFiles (discover globMatch bookPatterns listing)

/-- The Book variant's pages, in processing order. -/
def bookPages (listing : List Text) (ocr : Text → Engine)
    (readTxt : Text → Text) : List Page :=
  processAll (fun n => (bookContent ocr readTxt n).1) (bookFiles listing)

/-- The Book variant's console error log, in processing order. -/
def bookLogs (listing : List Text) (ocr : Text → Engine)
    (readTxt : Text → Text) : List (Text × Text) :=
  (bookFiles listing).flatMap fun n => ((bookContent ocr readTxt n).2).toList

/-- `main` of `read_book_to_text.py` on a directory listing: discover and
sort the files, process each in order, and write the rendered document only
when at least one page has content. -/
def runBook (listing : List Text) (ocr : Text → Engine)
    (readTxt : Text → Text) (ts : Text) : RunResult :=
  if bookFiles listing = [] then
    ⟨none, [], [], 0, some "❌ ไม่พบไฟล์ใดๆ ในโฟลเดอร์ Book".data⟩
  else if bookPages listing ocr readTxt = [] then
    ⟨none, bookPages listing ocr readTxt, bookLogs listing ocr readTxt,
     (bookFiles listing).length, some "❌ ไม่มีเนื้อหาที่อ่านได้จากไฟล์ใดๆ".data⟩
  else
    ⟨some (renderBook (bookFiles listing).length ts (bookPages listing ocr readTxt)),
     bookPages listing ocr readTxt, bookLogs listing ocr readTxt,
     (bookFiles listing).length, none⟩

/-- The images variant's discovered, sorted file list (the script sorts the
full paths, which all share the directory prefix, so the order is the order
of the names). -/
def imagesFiles (listing : List Text) : List Text :=
  sortFiles (discover globMatchG imagesPatterns listing)

/-- The images variant's pages, in processing order. -/
def imagesPages (listing : List Text) (ocr : Text → Engine) : List Page :=
  processAll (fun n => (extract_text_from_image n (ocr n)).1) (imagesFiles listing)

/-- The images variant's console error log, in processing order. -/
def imagesLogs (listing : List Text) (ocr : Text → Engine) : List (Text × Text) :=
  (imagesFiles listing).flatMap fun n => ((extract_text_from_image n (ocr n)).2).toList

/-- `main` of `extract_text_from_images.py` on a directory listing:
discover and sort the image files, read each, and write the joined entries
only when at least one page has content. -/
def runImages (listing : List Text) (ocr : Text → Engine) : RunResult :=
  if imagesFiles listing = [] then
    ⟨none, [], [], 0, some "ไม่พบไฟล์ภาพในโฟลเดอร์".data⟩
  else if imagesPages listing ocr = [] then
    ⟨none, imagesPages listing ocr, imagesLogs listing ocr,
     (imagesFiles listing).length, some "✗ ไม่มีข้อความที่อ่านได้จากภาพ".data⟩
  else
    ⟨some (renderImages (imagesPages listing ocr)), imagesPages listing ocr,
     imagesLogs listing ocr, (imagesFiles listing).length, none⟩

/-! ### Order lemmas for `strLe` -/

theorem strLe_total (a b : Text) : strLe a b || strLe b a := by
  induction a generalizing b with
  | nil => simp [strLe]
  | cons c as ih =>
    cases b with
    | nil => simp [strLe]
    | cons d bs =>
      by_cases h : c = d
      · subst h
        simp [strLe, ih bs]
      · have h2 : d ≠ c := fun e => h e.symm
        simp [strLe, h, h2, lt_or_gt_of_ne h]

theorem strLe_trans : ∀ a b c : Text, strLe a b → strLe b c → strLe a c
  | [], _, _, _, _ => by simp [strLe]
  | _ :: _, [], _, h, _ => by simp [strLe] at h
  | _ :: _, _ :: _, [], _, h => by simp [strLe] at h
  | x :: xs, y :: ys, z :: zs, h1, h2 => by
    by_cases hxy : x = y
    · subst hxy
      by_cases hyz : x = z
      · subst hyz
        simp only [strLe, if_pos rfl] at h1 h2 ⊢
        exact strLe_trans xs ys zs h1 h2
      · simpa [strLe, hyz] using h2
    · by_cases hyz : y = z
      · subst hyz
        simpa [strLe, hxy] using h1
      · simp only [strLe, if_neg hxy, if_neg hyz, decide_eq_true_eq] at h1 h2
        by_cases hxz : x = z
        · exact absurd (lt_trans h1 h2) (by simp [hxz])
        · simp [strLe, hxz, decide_eq_true_eq]
          exact lt_trans h1 h2

theorem strLe_antisymm : ∀ a b : Text, strLe a b → strLe b a → a = b
  | [], [], _, _ => rfl
  | [], _ :: _, _, h => by simp [strLe] at h
  | _ :: _, [], h, _ => by simp [strLe] at h
  | x :: xs, y :: ys, h1, h2 => by
    by_cases hxy : x = y
    · subst hxy
      simp only [strLe, if_pos rfl] at h1 h2
      rw [strLe_antisymm xs ys h1 h2]
    · have hyx : y ≠ x := fun e => hxy e.symm
      simp only [strLe, if_neg hxy, if_neg hyx, decide_eq_true_eq] at h1 h2
      exact absurd (lt_trans h1 h2) (lt_irrefl x)

/-- Shorthand for the propositional ordering used by the sort. -/
def NameLe (x y : Text) : Prop := strLe x y = true

theorem insertFile_perm (a : Text) (l : List Text) :
    (insertFile a l).Perm (a :: l) := by
  induction l with
  | nil => exact .refl _
  | cons b bs ih =>
    by_cases h : strLe a b
    · simp [insertFile, h]
    · simp only [insertFile, h, Bool.false_eq_true, if_false]
      exact ((ih.cons b).trans (List.Perm.swap a b bs))

theorem sortFiles_perm (l : List Text) : (sortFiles l).Perm l := by
  induction l with
  | nil => exact .refl _
  | cons a as ih => exact (insertFile_perm a (sortFiles as)).trans (ih.cons a)

theorem insertFile_sorted (a : Text) (l : List Text)
    (h : l.Pairwise NameLe) : (insertFile a l).Pairwise NameLe := by
  induction l with
  | nil => simp [insertFile]
  | cons b bs ih =>
    rcases List.pairwise_cons.1 h with ⟨hb, hbs⟩
    by_cases hab : strLe a b
    · simp only [insertFile, hab, if_true]
      refine List.pairwise_cons.2 ⟨?_, h⟩
      intro y hy
      rcases List.mem_cons.1 hy with rfl | hy
      · exact hab
      · exact strLe_trans a b y hab (hb y hy)
    · have hba : strLe b a = true := by
        have := strLe_total a b
        simpa [hab] using this
      simp only [insertFile, hab, Bool.false_eq_true, if_false]
      refine List.pairwise_cons.2 ⟨?_, ih hbs⟩
      intro y hy
      rcases List.mem_cons.1 ((insertFile_perm a bs).mem_iff.1 hy) with rfl | h2
      · exact hba
      · exact hb y h2

theorem sortFiles_sorted (l : List Text) : (sortFiles l).Pairwise NameLe := by
  induction l with
  | nil => simp [sortFiles]
  | cons a as ih => exact insertFile_sorted a (sortFiles as) ih

/-- The sorted permutation is unique: sorting any reordering of a listing
gives the same file list. -/
theorem sortFiles_eq_of_perm {l₁ l₂ : List Text} (h : l₁.Perm l₂) :
    sortFiles l₁ = sortFiles l₂ := by
  have hperm : (sortFiles l₁).Perm (sortFiles l₂) :=
    (sortFiles_perm l₁).trans (h.trans (sortFiles_perm l₂).symm)
  haveI : IsAntisymm Text NameLe := ⟨fun a b => strLe_antisymm a b⟩
  exact List.eq_of_perm_of_sorted hperm (sortFiles_sorted l₁) (sortFiles_sorted l₂)

/-! ### Stable-max lemmas for `pyMax` -/

theorem pyMax_cons (key : Text → Nat) (x y : Text) (ys : List Text) :
    pyMax key x (y :: ys) = pyMax key (if key x < key y then y else x) ys := rfl

/-- Python's `max` with a key is a stable maximum: the list splits as
`l₁ ++ m :: l₂` where every element of `l₁` has a strictly smaller key than
the returned `m`, and `m`'s key is maximal over the whole list. -/
theorem pyMax_stable (key : Text → Nat) (x : Text) (xs : List Text) :
    ∃ l₁ l₂, x :: xs = l₁ ++ pyMax key x xs :: l₂ ∧
      (∀ y ∈ l₁, key y < key (pyMax key x xs)) ∧
      (∀ y ∈ x :: xs, key y ≤ key (pyMax key x xs)) := by
  induction xs generalizing x with
  | nil =>
    refine ⟨[], [], rfl, by simp, ?_⟩
    intro z hz
    have hzx : z = x := by simpa using hz
    subst hzx
    exact le_refl _
  | cons y ys ih =>
    rw [pyMax_cons]
    by_cases hxy : key x < key y
    · rw [if_pos hxy]
      obtain ⟨l₁, l₂, heq, hlt, hle⟩ := ih y
      have hym : key y ≤ key (pyMax key y ys) := hle y (List.mem_cons_self y ys)
      refine ⟨x :: l₁, l₂, ?_, ?_, ?_⟩
      · rw [List.cons_append, ← heq]
      · intro z hz
        rcases List.mem_cons.1 hz with rfl | hz
        · exact lt_of_lt_of_le hxy hym
        · exact hlt z hz
      · intro z hz
        rcases List.mem_cons.1 hz with rfl | hz
        · exact le_of_lt (lt_of_lt_of_le hxy hym)
        · exact hle z hz
    · rw [if_neg hxy]
      have hyx : key y ≤ key x := le_of_not_lt hxy
      obtain ⟨l₁, l₂, heq, hlt, hle⟩ := ih x
      cases l₁ with
      | nil =>
        simp only [List.nil_append] at heq
        injection heq with h1 h2
        refine ⟨[], y :: ys, by rw [List.nil_append, ← h1], by simp, ?_⟩
        intro z hz
        rcases List.mem_cons.1 hz with rfl | hz
        · exact hle z (List.mem_cons_self z ys)
        · rcases List.mem_cons.1 hz with rfl | hz
          · exact le_trans hyx (hle x (List.mem_cons_self x ys))
          · exact hle z (List.mem_cons_of_mem x hz)
      | cons a l₁' =>
        simp only [List.cons_append] at heq
        injection heq with h1 h2
        have hxm : key x < key (pyMax key x ys) := by
          refine hlt x ?_
          rw [h1]
          exact List.mem_cons_self a l₁'
        refine ⟨x :: y :: l₁', l₂, ?_, ?_, ?_⟩
        · simp only [List.cons_append]
          rw [← h2]
        · intro z hz
          rcases List.mem_cons.1 hz with rfl | hz
          · exact hxm
          · rcases List.mem_cons.1 hz with rfl | hz
            · exact lt_of_le_of_lt hyx hxm
            · refine hlt z ?_
              rw [← h1]
              exact List.mem_cons_of_mem x hz
        · intro z hz
          rcases List.mem_cons.1 hz with rfl | hz
          · exact le_of_lt hxm
          · rcases List.mem_cons.1 hz with rfl | hz
            · exact le_of_lt (lt_of_le_of_lt hyx hxm)
            · exact hle z (List.mem_cons_of_mem x hz)

/-! ### Engine-call traversal lemmas -/

theorem traverseCalls_ok (f : OcrCall → Text) :
    ∀ calls : List OcrCall,
      traverseCalls (fun c => .ok (f c)) calls = .ok (calls.map f)
  | [] => rfl
  | c :: cs => by
    simp [traverseCalls, traverseCalls_ok f cs]

theorem callTrace_ok (f : OcrCall → Text) :
    ∀ calls : List OcrCall, callTrace (fun c => .ok (f c)) calls = calls
  | [] => rfl
  | c :: cs => by
    simp [callTrace, callTrace_ok f cs]

/-! ### Newline-collapse lemmas -/

theorem noTripleAux_replicate (m : Nat) (hm : m ≤ 2) :
    noTripleAux 0 (List.replicate m '\n') = true := by
  interval_cases m <;> simp [noTripleAux, List.replicate]

theorem noTripleAux_replicate_append (m : Nat) (hm : m ≤ 2) (c : Char)
    (hc : ¬c = '\n') (t : Text) :
    noTripleAux 0 (List.replicate m '\n' ++ c :: t) = noTripleAux 0 t := by
  interval_cases m <;> simp [noTripleAux, List.replicate, hc]

/-- The collapsed text has no run of three or more newlines. -/
theorem noTriple_collapseAux : ∀ (s : Text) (k : Nat),
    noTripleAux 0 (collapseAux k s) = true
  | [], k => by
    simp only [collapseAux]
    exact noTripleAux_replicate _ (min_le_right _ _)
  | c :: rest, k => by
    by_cases hc : c = '\n'
    · subst hc
      simp only [collapseAux, if_pos rfl]
      exact noTriple_collapseAux rest (k + 1)
    · simp only [collapseAux, if_neg hc]
      rw [noTripleAux_replicate_append _ (min_le_right _ _) c hc]
      exact noTriple_collapseAux rest 0

/-- Collapsing is the identity on text with no run of three newlines. -/
theorem collapseAux_of_noTriple : ∀ (s : Text) (k : Nat), k ≤ 2 →
    noTripleAux k s = true → collapseAux k s = List.replicate k '\n' ++ s
  | [], k, hk, _ => by
    simp [collapseAux, Nat.min_eq_left hk]
  | c :: rest, k, hk, h => by
    by_cases hc : c = '\n'
    · subst hc
      simp only [noTripleAux, if_pos rfl] at h
      by_cases h3 : 3 ≤ k + 1
      · rw [if_pos h3] at h
        exact absurd h (by simp)
      · rw [if_neg h3] at h
        simp only [collapseAux, if_pos rfl]
        rw [collapseAux_of_noTriple rest (k + 1) (by omega) h]
        simp [List.replicate_succ', List.append_assoc]
    · simp only [noTripleAux, if_neg hc] at h
      simp only [collapseAux, if_neg hc]
      rw [collapseAux_of_noTriple rest 0 (by omega) h]
      simp [Nat.min_eq_left hk]

theorem filter_replicate_nl (p : Char → Bool) (hp : p '\n' = false) (m : Nat) :
    (List.replicate m '\n').filter p = [] := by
  induction m with
  | zero => rfl
  | succ n ih => simp [List.replicate_succ, List.filter_cons, hp, ih]

/-- Collapsing newline runs does not touch any other character: filtering
the newlines out of the collapsed text gives back the filtered original. -/
theorem collapseAux_filter (p : Char → Bool) (hp : p '\n' = false) :
    ∀ (s : Text) (k : Nat), (collapseAux k s).filter p = s.filter p
  | [], k => by
    simp [collapseAux, filter_replicate_nl p hp]
  | c :: rest, k => by
    by_cases hc : c = '\n'
    · subst hc
      simp only [collapseAux, if_pos rfl, eq_self_iff_true, if_true]
      rw [collapseAux_filter p hp rest (k + 1)]
      simp [List.filter_cons, hp]
    · simp only [collapseAux, if_neg hc]
      rw [List.filter_append, filter_replicate_nl p hp]
      simp [List.filter_cons, collapseAux_filter p hp rest 0]

/-- Stripping returns a contiguous part of the original text. -/
theorem pyStrip_infix (s : Text) : pyStrip s <:+: s := by
  have h1 : (s.dropWhile isPySpace).reverse.dropWhile isPySpace <:+
      (s.dropWhile isPySpace).reverse := List.dropWhile_suffix _
  have h2 : pyStrip s <+: s.dropWhile isPySpace := by
    have := List.reverse_prefix.2 h1
    simpa [pyStrip] using this
  exact h2.isInfix.trans (List.dropWhile_suffix _).isInfix

/-! ### Page-loop lemmas -/

theorem processFrom_mem (co : Text → Text) :
    ∀ (files : List Text) (n : Nat) (p : Page), p ∈ processFrom co n files →
      ∃ i, files[i]? = some p.name ∧ p.idx = n + i ∧
        p.content = co p.name ∧ co p.name ≠ []
  | [], _, p, h => by simp [processFrom] at h
  | x :: files, n, p, h => by
    by_cases hx : co x = []
    · simp only [processFrom, if_pos hx] at h
      obtain ⟨i, h1, h2, h3, h4⟩ := processFrom_mem co files (n + 1) p h
      exact ⟨i + 1, by simpa using h1, by omega, h3, h4⟩
    · simp only [processFrom, if_neg hx] at h
      rcases List.mem_cons.1 h with rfl | h
      · exact ⟨0, by simp, by simp, rfl, hx⟩
      · obtain ⟨i, h1, h2, h3, h4⟩ := processFrom_mem co files (n + 1) p h
        exact ⟨i + 1, by simpa using h1, by omega, h3, h4⟩

theorem processFrom_mem_of (co : Text → Text) :
    ∀ (files : List Text) (n i : Nat) (name : Text),
      files[i]? = some name → co name ≠ [] →
      (⟨n + i, name, co name⟩ : Page) ∈ processFrom co n files
  | [], _, i, _, h, _ => by simp at h
  | x :: files, n, i, name, h, hco => by
    cases i with
    | zero =>
      simp only [List.getElem?_cons_zero, Option.some.injEq] at h
      subst h
      simp [processFrom, if_neg hco]
    | succ i =>
      simp only [List.getElem?_cons_succ] at h
      have hmem := processFrom_mem_of co files (n + 1) i name h hco
      have harith : n + (i + 1) = (n + 1) + i := by omega
      by_cases hx : co x = []
      · simp only [processFrom, if_pos hx]
        rw [harith]
        exact hmem
      · simp only [processFrom, if_neg hx]
        rw [harith]
        exact List.mem_cons_of_mem _ hmem

theorem processFrom_idx_ge (co : Text → Text) (files : List Text) (n : Nat)
    (p : Page) (h : p ∈ processFrom co n files) : n ≤ p.idx := by
  obtain ⟨i, _, h2, _, _⟩ := processFrom_mem co files n p h
  omega

theorem processFrom_idx_pairwise (co : Text → Text) :
    ∀ (files : List Text) (n : Nat),
      (processFrom co n files).Pairwise (fun p q => p.idx < q.idx)
  | [], _ => by simp [processFrom]
  | x :: files, n => by
    by_cases hx : co x = []
    · simp only [processFrom, if_pos hx]
      exact processFrom_idx_pairwise co files (n + 1)
    · simp only [processFrom, if_neg hx]
      refine List.pairwise_cons.2 ⟨?_, processFrom_idx_pairwise co files (n + 1)⟩
      intro q hq
      have := processFrom_idx_ge co files (n + 1) q hq
      show n < q.idx
      omega

theorem processFrom_map_name_sublist (co : Text → Text) :
    ∀ (files : List Text) (n : Nat),
      ((processFrom co n files).map Page.name).Sublist files
  | [], _ => by simp [processFrom]
  | x :: files, n => by
    by_cases hx : co x = []
    · simp only [processFrom, if_pos hx]
      exact (processFrom_map_name_sublist co files (n + 1)).cons x
    · simp only [processFrom, if_neg hx, List.map_cons]
      exact (processFrom_map_name_sublist co files (n + 1)).cons₂ x

theorem processFrom_name_pairwise (co : Text → Text) (files : List Text)
    (n : Nat) (h : files.Pairwise NameLe) :
    (processFrom co n files).Pairwise (fun p q => NameLe p.name q.name) := by
  have hsub := processFrom_map_name_sublist co files n
  exact List.pairwise_map.1 (h.sublist hsub)

/-! ### Extension lemmas -/

theorem rfindDot_eq_none (r : Text) (h : '.' ∉ r) : rfindDot r = none := by
  induction r with
  | nil => rfl
  | cons c rest ih =>
    have hc : ¬c = '.' := fun e => h (e ▸ List.mem_cons_self c rest)
    have hr : '.' ∉ rest := fun hm => h (List.mem_cons_of_mem c hm)
    simp [rfindDot, ih hr, hc]

theorem rfindDot_append (l tail : Text) (h : '.' ∉ tail) :
    rfindDot (l ++ '.' :: tail) = some l.length := by
  induction l with
  | nil => simp [rfindDot, rfindDot_eq_none tail h]
  | cons c l ih => simp [rfindDot, ih]

/-- The suffix of a name of the shape `pre ++ "." ++ tail` where the
extension `tail` is nonempty and dot-free and the stem `pre` is nonempty. -/
theorem pySuffix_append (pre tail : Text) (hpre : pre ≠ []) (h : '.' ∉ tail)
    (htail : tail ≠ []) :
    pySuffix (pre ++ '.' :: tail) = '.' :: tail := by
  have h0 : 0 < pre.length := List.length_pos.2 hpre
  have ht : 0 < tail.length := List.length_pos.2 htail
  have h1 : pre.length < (pre ++ '.' :: tail).length - 1 := by
    simp only [List.length_append, List.length_cons]
    omega
  unfold pySuffix
  rw [rfindDot_append pre tail h]
  show (if 0 < pre.length ∧ pre.length < (pre ++ '.' :: tail).length - 1 then
      (pre ++ '.' :: tail).drop pre.length else []) = '.' :: tail
  rw [if_pos ⟨h0, h1⟩]
  exact List.drop_left pre ('.' :: tail)

theorem globMatch_star (suffix name : Text) :
    globMatch ('*' :: suffix) name = suffix.isSuffixOf name := rfl

/-- The Book variant's dispatch agrees everywhere with the specification's
case-insensitive allow-list classification. -/
theorem classifyBook_eq_classifySpec (name : Text) :
    classifyBook name = classifySpec name := by
  have hlow : ∀ e ∈ bookImageExts, e.map Char.toLower = e := by decide
  have htxt : (".txt".data).map Char.toLower = ".txt".data := by decide
  unfold classifyBook classifySpec
  rw [htxt]
  by_cases h1 : (pySuffix name).map Char.toLower ∈ bookImageExts
  · have h2 : (bookImageExts.any fun e =>
        (pySuffix name).map Char.toLower = e.map Char.toLower) = true := by
      refine List.any_eq_true.2 ⟨_, h1, ?_⟩
      simp only [decide_eq_true_eq]
      rw [hlow _ h1]
    simp [h1, h2]
  · have h2 : (bookImageExts.any fun e =>
        (pySuffix name).map Char.toLower = e.map Char.toLower) = false := by
      refine List.any_eq_false.2 ?_
      intro e he
      simp only [decide_eq_true_eq]
      rw [hlow _ he]
      exact fun hcontra => h1 (hcontra ▸ he)
    simp [h1, h2]

/-- Any name accepted by one of the images variant's glob patterns has a
case-insensitive extension in the specification's image allow-list. -/
theorem classifySpec_of_suffixMatch (name tail : Text)
    (hhid : ¬name.head? = some '.')
    (hsuf : ('.' :: tail).isSuffixOf name)
    (hdot : '.' ∉ tail) (htail : tail ≠ [])
    (himg : (bookImageExts.any fun e =>
        ('.' :: tail).map Char.toLower = e.map Char.toLower) = true) :
    classifySpec name = .image := by
  obtain ⟨pre, hpre⟩ := List.isSuffixOf_iff_suffix.1 hsuf
  have hprene : pre ≠ [] := by
    rintro rfl
    exact hhid (by rw [← hpre]; rfl)
  have hs : pySuffix name = '.' :: tail := by
    rw [← hpre]
    exact pySuffix_append pre tail hprene hdot htail
  unfold classifySpec
  rw [hs]
  simp only [himg]
  rfl

theorem imagesDiscovered_classifySpec (name : Text) (listing : List Text)
    (h : name ∈ discover globMatchG imagesPatterns listing) :
    classifySpec name = .image := by
  simp only [discover, List.mem_flatMap] at h
  obtain ⟨pat, hpat, hname⟩ := h
  have hmatch : globMatchG pat name = true := (List.mem_filter.1 hname).2
  fin_cases hpat <;>
  · rw [globMatchG, Bool.and_eq_true] at hmatch
    obtain ⟨hhid, hsuf⟩ := hmatch
    rw [globMatch_star] at hsuf
    refine classifySpec_of_suffixMatch name _ ?_ hsuf (by decide) (by decide)
      (by decide)
    simpa using hhid

/-! ### Run characterisation lemmas -/

theorem runBook_pages (listing : List Text) (ocr : Text → Engine)
    (readTxt : Text → Text) (ts : Text) :
    (runBook listing ocr readTxt ts).pages = bookPages listing ocr readTxt := by
  unfold runBook
  split
  · rename_i h
    simp [bookPages, h, processAll, processFrom]
  · split <;> rfl

theorem runBook_logs (listing : List Text) (ocr : Text → Engine)
    (readTxt : Text → Text) (ts : Text) :
    (runBook listing ocr readTxt ts).logs = bookLogs listing ocr readTxt := by
  unfold runBook
  split
  · rename_i h
    simp [bookLogs, h]
  · split <;> rfl

theorem runBook_totalFiles (listing : List Text) (ocr : Text → Engine)
    (readTxt : Text → Text) (ts : Text) :
    (runBook listing ocr readTxt ts).totalFiles = (bookFiles listing).length := by
  unfold runBook
  split
  · rename_i h
    simp [h]
  · split <;> rfl

theorem runBook_output (listing : List Text) (ocr : Text → Engine)
    (readTxt : Text → Text) (ts : Text) :
    (runBook listing ocr readTxt ts).output =
      if bookPages listing ocr readTxt = [] then none
      else some (renderBook (bookFiles listing).length ts
        (bookPages listing ocr readTxt)) := by
  unfold runBook
  split
  · rename_i h
    have hp : bookPages listing ocr readTxt = [] := by
      simp [bookPages, h, processAll, processFrom]
    simp [hp]
  · split
    · rename_i h2
      simp [h2]
    · rename_i h2
      simp [h2]

theorem runBook_failMsg (listing : List Text) (ocr : Text → Engine)
    (readTxt : Text → Text) (ts : Text) :
    ((runBook listing ocr readTxt ts).output = none ↔
      ((runBook listing ocr readTxt ts).failMsg).isSome) := by
  unfold runBook
  split
  · simp
  · split <;> simp

theorem runImages_pages (listing : List Text) (ocr : Text → Engine) :
    (runImages listing ocr).pages = imagesPages listing ocr := by
  unfold runImages
  split
  · rename_i h
    simp [imagesPages, h, processAll, processFrom]
  · split <;> rfl

theorem runImages_logs (listing : List Text) (ocr : Text → Engine) :
    (runImages listing ocr).logs = imagesLogs listing ocr := by
  unfold runImages
  split
  · rename_i h
    simp [imagesLogs, h]
  · split <;> rfl

theorem runImages_totalFiles (listing : List Text) (ocr : Text → Engine) :
    (runImages listing ocr).totalFiles = (imagesFiles listing).length := by
  unfold runImages
  split
  · rename_i h
    simp [h]
  · split <;> rfl

theorem runImages_output (listing : List Text) (ocr : Text → Engine) :
    (runImages listing ocr).output =
      if imagesPages listing ocr = [] then none
      else some (renderImages (imagesPages listing ocr)) := by
  unfold runImages
  split
  · rename_i h
    have hp : imagesPages listing ocr = [] := by
      simp [imagesPages, h, processAll, processFrom]
    simp [hp]
  · split
    · rename_i h2
      simp [h2]
    · rename_i h2
      simp [h2]

theorem runImages_failMsg (listing : List Text) (ocr : Text → Engine) :
    ((runImages listing ocr).output = none ↔
      ((runImages listing ocr).failMsg).isSome) := by
  unfold runImages
  split
  · simp
  · split <;> simp

theorem discover_perm (m : Text → Text → Bool) (patterns : List Text)
    {l₁ l₂ : List Text} (h : l₁.Perm l₂) :
    (discover m patterns l₁).Perm (discover m patterns l₂) := by
  induction patterns with
  | nil => simp [discover]
  | cons p ps ih =>
    simp only [discover, List.flatMap_cons] at ih ⊢
    exact (h.filter (m p)).append ih

deriving instance DecidableEq for Except

/-! ### Claim C1 -/

/-- Engine for the C1 counterexample: the preprocessed-image call returns
`"ab   "` (raw length 5, trimmed length 2), the original tha+eng call
returns `"abc"` (trimmed length 3). -/
def engineC1 : Engine := fun c =>
  if c = ⟨.preprocessed, .thaEng, .uniformBlock⟩ then .ok "ab   ".data
  else if c = ⟨.original, .thaEng, .uniformBlock⟩ then .ok "abc".data
  else .ok "x".data

/-- C1 fails on the images variant: its selector maximises the raw length,
so with candidates `"ab   "` and `"abc"` it keeps `"ab   "` even though its
trimmed length (2) is smaller than `"abc"`'s (3); the file's final text is
`"ab"`, not `"abc"`. -/
theorem C1_counterexample :
    pyMaxL rawLen ["ab   ".data, "abc".data, "x".data] = "ab   ".data ∧
    stripLen "ab   ".data < stripLen "abc".data ∧
    (extract_text_from_image "img.png".data engineC1).1 = "ab".data ∧
    engineC1 ⟨.original, .thaEng, .uniformBlock⟩ = .ok "abc".data := by
  decide

/-- C1 (amended): both selectors are stable maxima, but over different
keys: the Book variant maximises the trimmed length, the images variant the
raw (untrimmed) length; in both, ties go to the earliest candidate in
configuration order. -/
theorem C1_selector_stable_max (x : Text) (xs : List Text) :
    (∃ l₁ l₂, x :: xs = l₁ ++ pyMaxL stripLen (x :: xs) :: l₂ ∧
      (∀ y ∈ l₁, stripLen y < stripLen (pyMaxL stripLen (x :: xs))) ∧
      ∀ y ∈ x :: xs, stripLen y ≤ stripLen (pyMaxL stripLen (x :: xs))) ∧
    (∃ l₁ l₂, x :: xs = l₁ ++ pyMaxL rawLen (x :: xs) :: l₂ ∧
      (∀ y ∈ l₁, rawLen y < rawLen (pyMaxL rawLen (x :: xs))) ∧
      ∀ y ∈ x :: xs, rawLen y ≤ rawLen (pyMaxL rawLen (x :: xs))) :=
  ⟨pyMax_stable stripLen x xs, pyMax_stable rawLen x xs⟩

/-! ### Claim C2 -/

/-- C2 fails on the images variant: it performs three engine invocations,
not four, it never uses the full-page-auto mode, and it runs the
preprocessed image first. -/
theorem C2_counterexample :
    callTrace (fun _ => Except.ok "x".data) imagesCalls = imagesCalls ∧
    imagesCalls.length = 3 ∧
    imagesCalls ≠ specEnumeratedCalls := by
  decide

/-- C2 (amended): with a non-throwing engine, the Book variant invokes
exactly the four spec-enumerated (image, language-set, mode) triples in the
spec's order; the images variant invokes its three triples in its own
order; in both, every invocation completes before selection and the
selector sees all results. -/
theorem C2_call_enumeration (f : OcrCall → Text) (name : Text) :
    callTrace (fun c => .ok (f c)) bookCalls = bookCalls ∧
    bookCalls = specEnumeratedCalls ∧
    callTrace (fun c => .ok (f c)) imagesCalls = imagesCalls ∧
    extract_text_with_layout name (fun c => .ok (f c)) =
      (collapseNewlines (pyStrip (pyMaxL stripLen (bookCalls.map f))), none) ∧
    extract_text_from_image name (fun c => .ok (f c)) =
      (pyStrip (pyMaxL rawLen (imagesCalls.map f)), none) := by
  refine ⟨callTrace_ok f _, by decide, callTrace_ok f _, ?_, ?_⟩
  · unfold extract_text_with_layout
    rw [traverseCalls_ok]
  · unfold extract_text_from_image
    rw [traverseCalls_ok]

/-! ### Claim C3 -/

/-- Engine for the C3 counterexample: every call returns a text with a run
of four newlines. -/
def engineC3 : Engine := fun _ => .ok "a\n\n\n\nb".data

/-- C3 fails on the images variant: the selected text keeps its run of four
consecutive newlines — that script performs no newline collapsing. -/
theorem C3_counterexample :
    (extract_text_from_image "img.png".data engineC3).1 = "a\n\n\n\nb".data ∧
    noTriple (extract_text_from_image "img.png".data engineC3).1 = false := by
  decide

/-- C3 (amended): the Book variant strips the winner and collapses newline
runs of three or more to two (leaving no such run, and touching no
non-newline character); the images variant only strips the winner and
performs no newline collapsing. Stripping only removes characters at the
two ends. -/
theorem C3_newline_collapse (f : OcrCall → Text) (name : Text) (s : Text) :
    (extract_text_with_layout name (fun c => .ok (f c))).1 =
      collapseNewlines (pyStrip (pyMaxL stripLen (bookCalls.map f))) ∧
    noTriple (extract_text_with_layout name (fun c => .ok (f c))).1 = true ∧
    (extract_text_from_image name (fun c => .ok (f c))).1 =
      pyStrip (pyMaxL rawLen (imagesCalls.map f)) ∧
    (collapseNewlines s).filter (fun c => c != '\n') =
      s.filter (fun c => c != '\n') ∧
    pyStrip s <:+: s := by
  refine ⟨?_, ?_, ?_, collapseAux_filter _ (by decide) s 0, pyStrip_infix s⟩
  · unfold extract_text_with_layout
    rw [traverseCalls_ok]
  · unfold extract_text_with_layout
    rw [traverseCalls_ok]
    exact noTriple_collapseAux _ 0
  · unfold extract_text_from_image
    rw [traverseCalls_ok]

/-! ### Claim C4 -/

/-- An engine that always answers; used by the C4 counterexample run. -/
def ocrAlwaysOk : Text → Engine := fun _ _ => .ok "hi".data

/-- C4 fails on discovery: `a.bmp` is classified as an image by the claimed
case-insensitive allow-list, yet the images script never discovers it (its
patterns stop at png/jpg/jpeg) — the run skips the file entirely; and even
the Book variant's globs never discover `a.BMP` (upper case is enumerated
only for png/jpg/jpeg). -/
theorem C4_counterexample :
    classifySpec "a.bmp".data = .image ∧
    discover globMatchG imagesPatterns ["a.bmp".data] = [] ∧
    (runImages ["a.bmp".data] ocrAlwaysOk).totalFiles = 0 ∧
    (runImages ["a.bmp".data] ocrAlwaysOk).output = none ∧
    classifySpec "a.BMP".data = .image ∧
    discover globMatch bookPatterns ["a.BMP".data] = [] := by
  decide

/-- C4 (amended): the Book variant's per-file dispatch is exactly the
claimed case-insensitive classification, non-image files never touch the
recognition engine, unsupported files yield empty content; the images
variant discovers only files whose extension is in the image allow-list
(but, per the counterexample, not all of them). -/
theorem C4_classification (name : Text) (listing : List Text)
    (ocr₁ ocr₂ : Text → Engine) (readTxt : Text → Text) :
    classifyBook name = classifySpec name ∧
    (classifyBook name ≠ .image →
      bookContent ocr₁ readTxt name = bookContent ocr₂ readTxt name) ∧
    (classifyBook name = .text →
      (bookContent ocr₁ readTxt name).1 = readTxt name) ∧
    (classifyBook name = .unsupported → (bookContent ocr₁ readTxt name).1 = []) ∧
    (name ∈ discover globMatchG imagesPatterns listing →
      classifySpec name = .image) := by
  refine ⟨classifyBook_eq_classifySpec name, ?_, ?_, ?_,
    fun h => imagesDiscovered_classifySpec name listing h⟩
  · intro h
    unfold bookContent
    cases hcb : classifyBook name with
    | image => exact absurd hcb h
    | text => rfl
    | unsupported => rfl
  · intro h
    unfold bookContent
    rw [h]
  · intro h
    unfold bookContent
    rw [h]

/-- Engines for the C4 witness: a text file's content is the same whether
the recognition engine answers or raises. -/
def ocrWitnessOk : Text → Engine := fun _ _ => .ok "X".data

/-- Second engine for the C4 witness. -/
def ocrWitnessErr : Text → Engine := fun _ _ => .error "E".data

theorem C4_witness :
    (classifyBook "a.txt".data ≠ .image ∧
      "x.png".data ∈ discover globMatchG imagesPatterns ["x.png".data]) ∧
    bookContent ocrWitnessOk (fun _ => "hello".data) "a.txt".data =
      bookContent ocrWitnessErr (fun _ => "hello".data) "a.txt".data ∧
    classifySpec "x.png".data = .image :=
  ⟨⟨by decide, by decide⟩,
   (C4_classification "a.txt".data [] ocrWitnessOk ocrWitnessErr
     (fun _ => "hello".data)).2.1 (by decide),
   (C4_classification "x.png".data ["x.png".data] ocrWitnessOk ocrWitnessErr
     (fun _ => "hello".data)).2.2.2.2 (by decide)⟩

/-! ### Claim C5 -/

/-- C5: a per-file decode/recognition failure, in either variant, is
recovered locally: the file's content becomes empty, a `(filename,
message)` log entry is emitted, no page for the file appears in the output,
the run's total file count still counts the failed file, and every other
file with nonempty content still contributes its page at its own ordinal
(processing continues). -/
theorem C5_per_file_failure (listing : List Text) (ocr : Text → Engine)
    (readTxt : Text → Text) (ts : Text) (name e : Text)
    (hmem : name ∈ bookFiles listing)
    (himg : classifyBook name = .image)
    (herr : traverseCalls (ocr name) bookCalls = .error e)
    (hmem2 : name ∈ imagesFiles listing)
    (herr2 : traverseCalls (ocr name) imagesCalls = .error e) :
    ((bookContent ocr readTxt name).1 = [] ∧
      (name, e) ∈ (runBook listing ocr readTxt ts).logs ∧
      (∀ p ∈ (runBook listing ocr readTxt ts).pages, p.name ≠ name) ∧
      (runBook listing ocr readTxt ts).totalFiles = (bookFiles listing).length ∧
      ∀ i other, (bookFiles listing)[i]? = some other → other ≠ name →
        (bookContent ocr readTxt other).1 ≠ [] →
        (⟨1 + i, other, (bookContent ocr readTxt other).1⟩ : Page) ∈
          (runBook listing ocr readTxt ts).pages) ∧
    ((extract_text_from_image name (ocr name)).1 = [] ∧
      (name, e) ∈ (runImages listing ocr).logs ∧
      (∀ p ∈ (runImages listing ocr).pages, p.name ≠ name) ∧
      (runImages listing ocr).totalFiles = (imagesFiles listing).length ∧
      ∀ i other, (imagesFiles listing)[i]? = some other → other ≠ name →
        (extract_text_from_image other (ocr other)).1 ≠ [] →
        (⟨1 + i, other, (extract_text_from_image other (ocr other)).1⟩ : Page) ∈
          (runImages listing ocr).pages) := by
  have hbc : bookContent ocr readTxt name = ([], some (name, e)) := by
    unfold bookContent
    rw [himg]
    unfold extract_text_with_layout
    rw [herr]
  have hic : extract_text_from_image name (ocr name) = ([], some (name, e)) := by
    unfold extract_text_from_image
    rw [herr2]
  constructor
  · refine ⟨by rw [hbc], ?_, ?_, runBook_totalFiles listing ocr readTxt ts, ?_⟩
    · rw [runBook_logs]
      unfold bookLogs
      refine List.mem_flatMap.2 ⟨name, hmem, ?_⟩
      rw [hbc]
      simp
    · intro p hp
      rw [runBook_pages] at hp
      obtain ⟨i, _, _, _, hne⟩ :=
        processFrom_mem _ (bookFiles listing) 1 p hp
      intro hcontra
      rw [hcontra] at hne
      exact hne (by rw [hbc])
    · intro i other hget hne hco
      rw [runBook_pages]
      exact processFrom_mem_of _ (bookFiles listing) 1 i other hget hco
  · refine ⟨by rw [hic], ?_, ?_, runImages_totalFiles listing ocr, ?_⟩
    · rw [runImages_logs]
      unfold imagesLogs
      refine List.mem_flatMap.2 ⟨name, hmem2, ?_⟩
      rw [hic]
      simp
    · intro p hp
      rw [runImages_pages] at hp
      obtain ⟨i, _, _, _, hne⟩ :=
        processFrom_mem _ (imagesFiles listing) 1 p hp
      intro hcontra
      rw [hcontra] at hne
      exact hne (by rw [hic])
    · intro i other hget hne hco
      rw [runImages_pages]
      exact processFrom_mem_of _ (imagesFiles listing) 1 i other hget hco

/-- Failing engine for the C5 witness: the recognition call for `b.png`
raises with message `boom`; every other file is read normally. -/
def ocrC5 : Text → Engine := fun n _ =>
  if n = "b.png".data then .error "boom".data else .ok "hi".data

theorem C5_witness :
    ("b.png".data ∈ bookFiles ["a.png".data, "b.png".data] ∧
      classifyBook "b.png".data = .image ∧
      traverseCalls (ocrC5 "b.png".data) bookCalls = .error "boom".data ∧
      "b.png".data ∈ imagesFiles ["a.png".data, "b.png".data] ∧
      traverseCalls (ocrC5 "b.png".data) imagesCalls = .error "boom".data) ∧
    ("b.png".data, "boom".data) ∈
      (runBook ["a.png".data, "b.png".data] ocrC5 (fun _ => []) "TS".data).logs ∧
    (∀ p ∈ (runBook ["a.png".data, "b.png".data] ocrC5 (fun _ => [])
        "TS".data).pages, p.name ≠ "b.png".data) ∧
    (runBook ["a.png".data, "b.png".data] ocrC5 (fun _ => [])
      "TS".data).totalFiles = 2 ∧
    ("b.png".data, "boom".data) ∈
      (runImages ["a.png".data, "b.png".data] ocrC5).logs ∧
    (runImages ["a.png".data, "b.png".data] ocrC5).totalFiles = 2 := by
  have h := C5_per_file_failure ["a.png".data, "b.png".data] ocrC5 (fun _ => [])
    "TS".data "b.png".data "boom".data (by decide) (by decide) (by decide)
    (by decide) (by decide)
  refine ⟨⟨by decide, by decide, by decide, by decide, by decide⟩,
    h.1.2.1, h.1.2.2.1, ?_, h.2.2.1, ?_⟩
  · rw [h.1.2.2.2.1]
    decide
  · rw [h.2.2.2.2.1]
    decide

/-! ### Claim C6 -/

/-- C6: in both variants a document is written exactly when at least one
page was produced, every produced page has nonempty content (no blank page
exists), and whenever nothing is written a failure message is reported to
the operator — including the run that found no files at all. -/
theorem C6_output_requires_content (listing : List Text) (ocr : Text → Engine)
    (readTxt : Text → Text) (ts : Text) :
    ((runBook listing ocr readTxt ts).output.isSome ↔
      (runBook listing ocr readTxt ts).pages ≠ []) ∧
    ((runBook listing ocr readTxt ts).output = none ↔
      ((runBook listing ocr readTxt ts).failMsg).isSome) ∧
    (∀ p ∈ (runBook listing ocr readTxt ts).pages, p.content ≠ []) ∧
    ((runImages listing ocr).output.isSome ↔
      (runImages listing ocr).pages ≠ []) ∧
    ((runImages listing ocr).output = none ↔
      ((runImages listing ocr).failMsg).isSome) ∧
    (∀ p ∈ (runImages listing ocr).pages, p.content ≠ []) := by
  refine ⟨?_, runBook_failMsg listing ocr readTxt ts, ?_, ?_,
    runImages_failMsg listing ocr, ?_⟩
  · rw [runBook_output, runBook_pages]
    by_cases h : bookPages listing ocr readTxt = [] <;> simp [h]
  · intro p hp
    rw [runBook_pages] at hp
    obtain ⟨i, _, _, hc, hne⟩ := processFrom_mem _ _ 1 p hp
    rw [hc]
    exact hne
  · rw [runImages_output, runImages_pages]
    by_cases h : imagesPages listing ocr = [] <;> simp [h]
  · intro p hp
    rw [runImages_pages] at hp
    obtain ⟨i, _, _, hc, hne⟩ := processFrom_mem _ _ 1 p hp
    rw [hc]
    exact hne

theorem C6_witness :
    (runBook ["a.png".data] ocrAlwaysOk (fun _ => []) "TS".data).pages ≠ [] ∧
    (runBook ["a.png".data] ocrAlwaysOk (fun _ => []) "TS".data).output.isSome :=
  ⟨by decide,
   (C6_output_requires_content ["a.png".data] ocrAlwaysOk (fun _ => [])
     "TS".data).1.2 (by decide)⟩

/-! ### Claim C7 -/

/-- C7: in both variants the discovered file list is lexicographically
sorted, the emitted pages follow it as a sublist (pages appear in
processing order, with strictly increasing ordinals and sorted filenames),
and any reordering of the same directory listing produces the identical run
result. -/
theorem C7_page_order (listing listing2 : List Text) (ocr : Text → Engine)
    (readTxt : Text → Text) (ts : Text) (hperm : listing.Perm listing2) :
    (bookFiles listing).Pairwise NameLe ∧
    ((runBook listing ocr readTxt ts).pages.map Page.name).Sublist
      (bookFiles listing) ∧
    (runBook listing ocr readTxt ts).pages.Pairwise
      (fun p q => NameLe p.name q.name) ∧
    (runBook listing ocr readTxt ts).pages.Pairwise
      (fun p q => p.idx < q.idx) ∧
    runBook listing ocr readTxt ts = runBook listing2 ocr readTxt ts ∧
    (imagesFiles listing).Pairwise NameLe ∧
    ((runImages listing ocr).pages.map Page.name).Sublist
      (imagesFiles listing) ∧
    (runImages listing ocr).pages.Pairwise
      (fun p q => NameLe p.name q.name) ∧
    (runImages listing ocr).pages.Pairwise (fun p q => p.idx < q.idx) ∧
    runImages listing ocr = runImages listing2 ocr := by
  have hbf : bookFiles listing = bookFiles listing2 :=
    sortFiles_eq_of_perm (discover_perm _ _ hperm)
  have hif : imagesFiles listing = imagesFiles listing2 :=
    sortFiles_eq_of_perm (discover_perm _ _ hperm)
  refine ⟨sortFiles_sorted _, ?_, ?_, ?_, ?_, sortFiles_sorted _, ?_, ?_, ?_, ?_⟩
  · rw [runBook_pages]
    exact processFrom_map_name_sublist _ _ 1
  · rw [runBook_pages]
    exact processFrom_name_pairwise _ _ 1 (sortFiles_sorted _)
  · rw [runBook_pages]
    exact processFrom_idx_pairwise _ _ 1
  · unfold runBook bookPages bookLogs processAll
    rw [hbf]
  · rw [runImages_pages]
    exact processFrom_map_name_sublist _ _ 1
  · rw [runImages_pages]
    exact processFrom_name_pairwise _ _ 1 (sortFiles_sorted _)
  · rw [runImages_pages]
    exact processFrom_idx_pairwise _ _ 1
  · unfold runImages imagesPages imagesLogs processAll
    rw [hif]

theorem C7_witness :
    (["b.png".data, "a.png".data] : List Text).Perm
      ["a.png".data, "b.png".data] ∧
    runBook ["b.png".data, "a.png".data] ocrAlwaysOk (fun _ => []) "TS".data =
      runBook ["a.png".data, "b.png".data] ocrAlwaysOk (fun _ => [])
        "TS".data :=
  ⟨List.Perm.swap _ _ _,
   (C7_page_order ["b.png".data, "a.png".data] ["a.png".data, "b.png".data]
     ocrAlwaysOk (fun _ => []) "TS".data
     (List.Perm.swap _ _ _)).2.2.2.2.1⟩

/-! ### Claim C8 -/

/-- C8: the newline-collapse rule is idempotent: collapsing an already
collapsed text changes nothing. -/
theorem C8_collapse_idempotent (s : Text) :
    collapseNewlines (collapseNewlines s) = collapseNewlines s := by
  have h1 := noTriple_collapseAux s 0
  have h2 := collapseAux_of_noTriple (collapseAux 0 s) 0 (by omega) h1
  simpa [collapseNewlines] using h2

/-! ### Claim C9 -/

/-- C9 fails on the images variant: two runs with different total file
counts (the second file's recognition raises, so it yields no page) write
byte-identical documents, so the written document contains neither the
run's file count nor any header. -/
theorem C9_counterexample :
    (runImages ["a.png".data] ocrC5).output =
      (runImages ["a.png".data, "b.png".data] ocrC5).output ∧
    (runImages ["a.png".data] ocrC5).totalFiles = 1 ∧
    (runImages ["a.png".data, "b.png".data] ocrC5).totalFiles = 2 ∧
    (runImages ["a.png".data, "b.png".data] ocrC5).output.isSome := by
  decide

theorem natText_infix_bookHeader (n : Nat) (ts : Text) :
    natText n <:+: bookHeader n ts :=
  ⟨eq100 ++ "\n📚 สรุปเนื้อหาจากโฟลเดอร์ Book\n".data ++ eq100
    ++ "\nจำนวนไฟล์ทั้งหมด: ".data,
   " ไฟล์\nวันที่ประมวลผล: ".data ++ ts ++ "\n".data ++ eq100 ++ "\n".data,
   by simp [bookHeader, List.append_assoc]⟩

theorem ts_infix_bookHeader (n : Nat) (ts : Text) :
    ts <:+: bookHeader n ts :=
  ⟨eq100 ++ "\n📚 สรุปเนื้อหาจากโฟลเดอร์ Book\n".data ++ eq100
    ++ "\nจำนวนไฟล์ทั้งหมด: ".data ++ natText n
    ++ " ไฟล์\nวันที่ประมวลผล: ".data,
   "\n".data ++ eq100 ++ "\n".data,
   by simp [bookHeader, List.append_assoc]⟩

/-- C9 (amended): whenever the Book variant writes a document, it begins
with the header, which carries the run's total file count and the
timestamp field `ts` (which the source fills with the previous output
file's modification time, or `N/A`); the images variant — see the
counterexample — writes no header at all. -/
theorem C9_book_header (listing : List Text) (ocr : Text → Engine)
    (readTxt : Text → Text) (ts doc : Text)
    (h : (runBook listing ocr readTxt ts).output = some doc) :
    ∃ body, doc =
        bookHeader (runBook listing ocr readTxt ts).totalFiles ts ++ body ∧
      natText (runBook listing ocr readTxt ts).totalFiles <:+:
        bookHeader (runBook listing ocr readTxt ts).totalFiles ts ∧
      ts <:+: bookHeader (runBook listing ocr readTxt ts).totalFiles ts := by
  rw [runBook_output] at h
  by_cases hp : bookPages listing ocr readTxt = []
  · rw [if_pos hp] at h
    exact absurd h (by simp)
  · rw [if_neg hp] at h
    have hd : doc = renderBook (bookFiles listing).length ts
        (bookPages listing ocr readTxt) := by
      injection h with h2
      exact h2.symm
    refine ⟨(bookPages listing ocr readTxt).flatMap
      (fun p => format_page_separator p.idx p.name ++ p.content),
      ?_, natText_infix_bookHeader _ _, ts_infix_bookHeader _ _⟩
    rw [hd, runBook_totalFiles]
    rfl

/-- A concrete written document for the C9 witness. -/
def docW9 : Text :=
  renderBook 1 "TS".data [⟨1, "a.txt".data, "hello".data⟩]

theorem C9_witness :
    (runBook ["a.txt".data] ocrAlwaysOk (fun _ => "hello".data)
      "TS".data).output = some docW9 ∧
    ∃ body, docW9 = bookHeader (runBook ["a.txt".data] ocrAlwaysOk
        (fun _ => "hello".data) "TS".data).totalFiles "TS".data ++ body ∧
      natText (runBook ["a.txt".data] ocrAlwaysOk (fun _ => "hello".data)
          "TS".data).totalFiles <:+:
        bookHeader (runBook ["a.txt".data] ocrAlwaysOk
          (fun _ => "hello".data) "TS".data).totalFiles "TS".data ∧
      "TS".data <:+: bookHeader (runBook ["a.txt".data] ocrAlwaysOk
        (fun _ => "hello".data) "TS".data).totalFiles "TS".data :=
  ⟨by decide,
   C9_book_header ["a.txt".data] ocrAlwaysOk (fun _ => "hello".data)
     "TS".data docW9 (by decide)⟩

/-! ### Claim C10 -/

/-- C10 fails when the only empty-content file is the last one: some file
yields empty content, yet the ordinals present in the output are exactly
the consecutive sequence starting at 1. -/
theorem C10_counterexample :
    (bookContent ocrC5 (fun _ => []) "b.png".data).1 = [] ∧
    "b.png".data ∈ bookFiles ["a.png".data, "b.png".data] ∧
    (runBook ["a.png".data, "b.png".data] ocrC5 (fun _ => [])
        "TS".data).pages.map Page.idx =
      List.range' 1 (runBook ["a.png".data, "b.png".data] ocrC5 (fun _ => [])
        "TS".data).pages.length := by
  decide

/-- C10 (amended): every emitted page's separator ordinal equals its file's
1-based position in the full sorted file list (counting files that yielded
no content); consequently the ordinals present in the output are not the
consecutive sequence 1..k whenever some empty-content file precedes, in
sorted order, a file that yields a page. -/
theorem C10_ordinal_positions (listing : List Text) (ocr : Text → Engine)
    (readTxt : Text → Text) (ts : Text) :
    (∀ p ∈ (runBook listing ocr readTxt ts).pages,
      ∃ i, (bookFiles listing)[i]? = some p.name ∧ p.idx = 1 + i ∧
        p.content = (bookContent ocr readTxt p.name).1) ∧
    (∀ (i j : Nat) (a b : Text), (bookFiles listing)[i]? = some a →
      (bookFiles listing)[j]? = some b → i < j →
      (bookContent ocr readTxt a).1 = [] →
      (bookContent ocr readTxt b).1 ≠ [] →
      (runBook listing ocr readTxt ts).pages.map Page.idx ≠
        List.range' 1 (runBook listing ocr readTxt ts).pages.length) := by
  constructor
  · intro p hp
    rw [runBook_pages] at hp
    obtain ⟨i, h1, h2, h3, _⟩ := processFrom_mem _ _ 1 p hp
    exact ⟨i, h1, h2, h3⟩
  · intro i j a b hga hgb hij hea hnb heq
    have hbmem : (⟨1 + j, b, (bookContent ocr readTxt b).1⟩ : Page) ∈
        (runBook listing ocr readTxt ts).pages := by
      rw [runBook_pages]
      exact processFrom_mem_of _ _ 1 j b hgb hnb
    have hjmem : (1 + j) ∈ (runBook listing ocr readTxt ts).pages.map Page.idx :=
      List.mem_map.2 ⟨_, hbmem, rfl⟩
    rw [heq] at hjmem
    obtain ⟨j0, hj0lt, hj0⟩ := List.mem_range'.1 hjmem
    have himem : (1 + i) ∈
        List.range' 1 (runBook listing ocr readTxt ts).pages.length :=
      List.mem_range'.2 ⟨i, by omega, by omega⟩
    rw [← heq] at himem
    obtain ⟨p, hpmem, hpidx⟩ := List.mem_map.1 himem
    rw [runBook_pages] at hpmem
    obtain ⟨i', hg', hidx', _, hne'⟩ := processFrom_mem _ _ 1 p hpmem
    have hii : i' = i := by omega
    subst hii
    rw [hga] at hg'
    injection hg' with hg'
    apply hne'
    rw [← hg']
    exact hea

/-- Failing engine for the C10 witness: the first file in sorted order
yields empty content, the second a page. -/
def ocrC10 : Text → Engine := fun n _ =>
  if n = "a.png".data then .error "x".data else .ok "hi".data

theorem C10_witness :
    (runBook ["a.png".data, "b.png".data] ocrC10 (fun _ => [])
        "TS".data).pages.map Page.idx ≠
      List.range' 1 (runBook ["a.png".data, "b.png".data] ocrC10
        (fun _ => []) "TS".data).pages.length :=
  (C10_ordinal_positions ["a.png".data, "b.png".data] ocrC10 (fun _ => [])
    "TS".data).2 0 1 "a.png".data "b.png".data (by decide) (by decide)
    (by decide) (by decide) (by decide)

end ReadTextImg
